import Mathlib

/-!
Verification development for the conversation-demo repository
(`crew_main.py` plus the `agents` package).

The Python source is shallowly embedded: pure fragments become Lean
functions, Python `dict`s become structures with `Option`-valued fields
for optional keys, exceptions become `Except String`, file-system and
external-engine effects become explicit environment parameters, and
`float` second/millisecond values become exact rationals (`ℚ`).
Wall-clock timestamp fields (`ts`, `end_ts`, `tts_*_time_s`,
the timestamped file-name component) are modelled by an opaque
`stamp : String` parameter where a name is needed and are otherwise
omitted, since real time is outside the embedding.
-/

namespace Crew

/-! ### Python string primitives

`str.strip`, `str.lower` and substring search (`re.search` with a literal
alternation pattern) as used by the agents.  `lower` is modelled on the
ASCII range (Python's Unicode lowering and this model agree on every
character the rule tables inspect; Hebrew has no case).  `strip` removes
the ASCII whitespace characters, which are the whitespace characters the
pipeline can produce. -/

/-- Whitespace test used by the model of Python `str.strip`. -/
def isPySpace (c : Char) : Bool :=
  c = ' ' || c = '\t' || c = '\n' || c = '\r' || c.toNat = 11 || c.toNat = 12

/-- One character of Python `str.lower`, on the ASCII range. -/
def pyLowerChar (c : Char) : Char :=
  if 65 ≤ c.toNat ∧ c.toNat ≤ 90 then Char.ofNat (c.toNat + 32) else c

/-- Python `str.strip` on a character list: drop whitespace at both ends. -/
def pyStripList (l : List Char) : List Char :=
  ((l.dropWhile isPySpace).reverse.dropWhile isPySpace).reverse

/-- Python `str.lower` on a character list. -/
def pyLowerList (l : List Char) : List Char :=
  l.map pyLowerChar

/-- Python `str.strip` on strings. -/
def pyStrip (s : String) : String :=
  String.mk (pyStripList s.data)

/-- Substring containment: `needle` occurs contiguously in `hay`.
Models a match of a single literal regex alternative. -/
def containsSub (hay needle : String) : Prop :=
  needle.data <:+: hay.data

instance (hay needle : String) : Decidable (containsSub hay needle) :=
  List.decidableInfix needle.data hay.data

/-- Model of `re.search` with a pattern that is an alternation of literals:
some alternative occurs in the text. -/
def reSearch (alts : List String) (t : List Char) : Bool :=
  alts.any fun a => decide (a.data <:+: t)

/-! ### CustomerServiceAgent (`agents/cs_agent.py`)

Scripted mode only (`CW_CS_USE_OPENAI` unset): `reply` always takes the
deterministic `_scripted_reply_for` path, whose only nondeterminism is
`random.choice(self.extra_replies)`; that choice is modelled by a
`choice : Nat` parameter indexing `extra_replies` modulo its length. -/

/-- A `{"reply": ..., "action": ...}` dict returned by the CS agent. -/
structure CsReply where
  reply : String
  action : String
deriving DecidableEq, Repr

/-- The `self.scripted_flow` list from `CustomerServiceAgent.__init__`. -/
def scripted_flow : List CsReply :=
  [ ⟨"אנא אשר את מספר תעודת הזהות שלך כדי שנוכל להמשיך.", "verify"⟩,
    ⟨"המדיניות שלנו היא ביטול מיידי ללא קנסות. האם תרצה להמשיך?", "explain"⟩,
    ⟨"הבקשה שלך בוטלה בהצלחה. נשלח לך אישור למייל תוך 24 שעות.", "confirm"⟩,
    ⟨"תודה שפנית לשירות הלקוחות. יום נעים!", "close"⟩ ]

/-- The `self.extra_replies` list from `CustomerServiceAgent.__init__`. -/
def extra_replies : List CsReply :=
  [ ⟨"להשלמת הביטול נשמח לאשר פרטי חשבון נוספים, נא לציין שם מלא.", "verify"⟩,
    ⟨"נוכל לשלוח אישור כתוב במייל — האם תרצה שנעשה זאת?", "confirm"⟩,
    ⟨"הבקשה התקבלה ותטופל בהקדם.", "confirm"⟩ ]

/-- The four regex alternation patterns of `_scripted_reply_for`,
as literal alternative lists. -/
def rule1_alts : List String := ["בטל", "לבטל", "לבקש ביטול", "לבטל"]

/-- Second rule pattern `אישור|אישורים|איך אדע|אישור במייל`. -/
def rule2_alts : List String := ["אישור", "אישורים", "איך אדע", "אישור במייל"]

/-- Third rule pattern `מה עליי לעשות|כיצד|איך`. -/
def rule3_alts : List String := ["מה עליי לעשות", "כיצד", "איך"]

/-- Fourth rule pattern `סיימתם|בוצע|בוצעה|סגור`. -/
def rule4_alts : List String := ["סיימתם", "בוצע", "בוצעה", "סגור"]

/-- Embedding of `CustomerServiceAgent._scripted_reply_for`.  Here `choice` models the
`random.choice` draw in the fourth rule (index modulo list length). -/
def scripted_reply_for (choice : Nat) (user_text : String) : CsReply :=
  let t := pyLowerList (pyStripList user_text.data)
  if reSearch rule1_alts t then
    scripted_flow.getD 0 ⟨"", ""⟩
  else if reSearch rule2_alts t then
    ⟨"נשלח אישור למייל ברגע שהביטול יושלם. מה כתובת המייל שלך?", "verify"⟩
  else if reSearch rule3_alts t then
    scripted_flow.getD 1 ⟨"", ""⟩
  else if reSearch rule4_alts t then
    extra_replies.getD (choice % extra_replies.length) ⟨"", ""⟩
  else
    ⟨"האם ברצונך שאבצע את הביטול כעת?", "explain"⟩

/-- Embedding of `CustomerServiceAgent.reply` in scripted mode: the LLM branch is
skipped (`use_openai` false) and the inner `except` around
`_scripted_reply_for` is unreachable in the embedding, so `reply`
returns `_scripted_reply_for` directly. -/
def cs_reply (choice : Nat) (user_text : String) : CsReply :=
  scripted_reply_for choice user_text

/-! ### LoggerAgent (`agents/logger_agent.py`)

`PII_PATTERN = re.compile(r"\b(\d\x7b6,\x7d)\b")` and
`PII_PATTERN.sub(lambda m: f"***\x7bm.group(1)[-4:]\x7d", text)`.
A match of this pattern is a maximal run of decimal digits, of length
at least 6, word-delimited on both sides (`\b` demands that the
neighbouring character, when it exists, is not a word character);
`re.sub` replaces each such run by `***` followed by its last four
digits.  Python's `re` on `str` is Unicode-aware; the model renders
`\w` and `\d` exactly on the character repertoire this pipeline's
strings draw from — ASCII, the Hebrew block U+0590–U+05FF and general
punctuation such as the em-dash of the client scripts: on that
repertoire `\d` is precisely the ASCII digits (the Hebrew block
contains no decimal digits) and `\w` is precisely ASCII alphanumerics,
underscore and the Hebrew letters (in Python, Hebrew letters are word
characters, while niqqud points, Hebrew and general punctuation are
not).  Word characters and decimal digits of other Unicode scripts do
not occur in this repository's strings or its Hebrew/ASCII data flow
and are outside the model. -/

/-- Word-character test (`\w`) on the pipeline repertoire: ASCII
letter, digit or underscore, or a Hebrew letter
(U+05D0–U+05EA and the ligature letters U+05F0–U+05F2). -/
def isWordChar (c : Char) : Bool :=
  c.isAlphanum || c = '_'
  || (1488 ≤ c.toNat && c.toNat ≤ 1514)
  || (1520 ≤ c.toNat && c.toNat ≤ 1522)

/-- The two `\b` tests around a candidate digit run: the character
before the run (when any) and the character after it (when any) must
not be word characters. -/
def boundaryOk (prev next : Option Char) : Bool :=
  (match prev with | none => true | some p => !isWordChar p)
  && (match next with | none => true | some q => !isWordChar q)

/-- What `re.sub` emits for one maximal digit run: the replacement
`***` + last four digits when the run matches
`\b(\d\x7b6,\x7d)\b`, the run itself otherwise. -/
def redactRun (prev : Option Char) (run : List Char) (next : Option Char) :
    List Char :=
  if boundaryOk prev next && decide (6 ≤ run.length) then
    '*' :: '*' :: '*' :: run.drop (run.length - 4)
  else run

/-- Core of `re.sub(PII_PATTERN, ...)`: scan the character list keeping
the previous character (`prev`) for the left word-boundary test,
handling one maximal digit run per step.  `fuel` only bounds the
recursion (each step consumes at least one character, so
`fuel = l.length` always suffices; see `redactGo_fuel`). -/
def redactGo (fuel : Nat) (prev : Option Char) (l : List Char) : List Char :=
  match l with
  | [] => []
  | c :: rest =>
    match fuel with
    | 0 => c :: rest
    | fuel + 1 =>
      if c.isDigit then
        redactRun prev ((c :: rest).takeWhile Char.isDigit)
          (((c :: rest).dropWhile Char.isDigit).head?)
        ++ redactGo fuel ((c :: rest).takeWhile Char.isDigit).getLast?
            ((c :: rest).dropWhile Char.isDigit)
      else c :: redactGo fuel (some c) rest

/-- Embedding of `LoggerAgent.redact`. -/
def redact (s : String) : String :=
  if s = "" then s else String.mk (redactGo s.data.length none s.data)

/-- A log entry: the `text` and `transcript` keys (the two the logger
redacts) are explicit; every other key/value pair is in `other`. -/
structure LogEntry where
  text_field : Option String := none
  transcript_field : Option String := none
  other : List (String × String) := []
deriving DecidableEq, Repr

/-- The stored form of an entry in `LoggerAgent.log`: the deep copy with
the `text` and `transcript` fields redacted. -/
def redact_entry (e : LogEntry) : LogEntry :=
  { e with
    text_field := e.text_field.map redact
    transcript_field := e.transcript_field.map redact }

/-- Path returned by `LoggerAgent.save()` with the default file name. -/
def logs_json_name : String := "outputs/logs/logs.json"

/-! ### STTAgent (`agents/stt_agent.py`)

The file system is an environment `wavEnv : String → Option (Nat × Nat)`
giving a WAV file's frame count and frame rate when `wave` can open it
(`none` models an unreadable file).  A loaded recognition backend is an
environment `backend : String → Option String → Except String WhisperRes`
modelling `self.model.transcribe(...)`, which may raise. -/

/-- A timed transcription segment: a Python dict whose possible keys are
`start`, `start_time`, `end`, `end_time`, `text`; a `none` field models
an absent key. -/
structure Seg where
  seg_start : Option ℚ := none
  seg_start_time : Option ℚ := none
  seg_end : Option ℚ := none
  seg_end_time : Option ℚ := none
  seg_text : Option String := none
deriving DecidableEq, Repr

/-- A raw segment as produced by a whisper backend before normalization:
either a dict with possible keys `start`, `start_ms`, `end`, `end_ms`,
`text`, or a non-dict value (whose `str(...)` form is kept). -/
inductive RawSeg where
  | dict (rs_start rs_start_ms rs_end rs_end_ms : Option ℚ)
      (rs_text : Option String)
  | nonDict (str_repr : String)
deriving DecidableEq, Repr

/-- The shape of a whisper backend result `res`, matching the branch
taken in `STTAgent.transcribe`: a dict with a `segments` key, a list, a
dict with a `text` key (but no `segments`), or anything else. -/
inductive WhisperRes where
  | dictWithSegments (segments : List RawSeg)
  | listRes (segments : List RawSeg)
  | dictWithText (text : String)
  | otherRes
deriving DecidableEq, Repr

/-- Embedding of `STTAgent._wav_duration`: frames divided by rate, and 0.0 on any
failure (unreadable file, or the `ZeroDivisionError` of rate 0). -/
def wav_duration (wavEnv : String → Option (Nat × Nat)) (path : String) : ℚ :=
  match wavEnv path with
  | some (frames, rate) => if rate = 0 then 0 else (frames : ℚ) / (rate : ℚ)
  | none => 0

/-- Embedding of `STTAgent._single_segment_from_wav`. -/
def single_segment_from_wav (wavEnv : String → Option (Nat × Nat))
    (path : String) (text : String) : Seg :=
  { seg_start := some 0, seg_end := some (wav_duration wavEnv path),
    seg_text := some text }

/-- The recognizer output dict `{'text', 'segments', 'language'}`. -/
structure SttOut where
  text : String
  segments : List Seg
  language : String
deriving DecidableEq, Repr

/-- The constructor-time state of `STTAgent` that `transcribe` inspects:
`self.impl_name` and whether `self.model` is not `None`. -/
structure STTAgent where
  impl_name : String
  model_loaded : Bool
deriving DecidableEq, Repr

/-- Normalization of one raw backend segment inside
`STTAgent.transcribe` (the body of the `for s in raw_segments` loop).
The `float(...)` conversions cannot fail in the embedding (values are
already rationals), so the per-segment `except ... continue` is dead. -/
def normalize_raw_seg (wavEnv : String → Option (Nat × Nat))
    (audio_path : String) (s : RawSeg) : Seg :=
  match s with
  | .dict st st_ms en en_ms tx =>
    let start1 : Option ℚ := match st with
      | some v => some v
      | none => st_ms.map (· / 1000)
    let end1 : Option ℚ := match en with
      | some v => some v
      | none => en_ms.map (· / 1000)
    let text := pyStrip (tx.getD "")
    match start1, end1 with
    | some a, some b => ⟨some a, none, some b, none, some text⟩
    | _, _ =>
      let dur := wav_duration wavEnv audio_path
      ⟨some (start1.getD 0), none, some (end1.getD dur), none, some text⟩
  | .nonDict r =>
    let dur := wav_duration wavEnv audio_path
    ⟨some 0, none, some dur, none, some (pyStrip r)⟩

/-- Model of `language or "und"` (`None` and `""` are both falsy). -/
def lang_or_und (language : Option String) : String :=
  match language with
  | some l => if l = "" then "und" else l
  | none => "und"

/-- Model of `" ".join(t for t in safe_texts if t).strip()` over the `text`
fields of the final segment list. -/
def join_safe_texts (segments : List Seg) : String :=
  pyStrip (String.intercalate " "
    ((segments.filterMap (·.seg_text)).filter (· ≠ "")))

/-- Embedding of `STTAgent.transcribe`.  Total: every branch returns a
`{'text', 'segments', 'language'}` value ("never raises past this
boundary"). -/
def transcribe (wavEnv : String → Option (Nat × Nat))
    (backend : String → Option String → Except String WhisperRes)
    (agent : STTAgent) (audio_path : String) (language : Option String) :
    SttOut :=
  if agent.impl_name = "mock" ∨ agent.model_loaded = false then
    let segs := [single_segment_from_wav wavEnv audio_path
      "[MOCK TRANSCRIPT - STT not available]"]
    { text := join_safe_texts segs, segments := segs,
      language := lang_or_und language }
  else
    match backend audio_path language with
    | .error _ =>
      let segs := [single_segment_from_wav wavEnv audio_path
        "[TRANSCRIBE ERROR]"]
      { text := String.intercalate " " (segs.filterMap (·.seg_text)),
        segments := segs, language := lang_or_und language }
    | .ok res =>
      match res with
      | .dictWithText txt0 =>
        let txt := pyStrip txt0
        { text := txt,
          segments := [single_segment_from_wav wavEnv audio_path txt],
          language := lang_or_und language }
      | _ =>
        let raw_segments : List RawSeg := match res with
          | .dictWithSegments segs => segs
          | .listRes segs => segs
          | _ => []
        let segments0 := raw_segments.map (normalize_raw_seg wavEnv audio_path)
        let segments := if segments0 = [] then
            [single_segment_from_wav wavEnv audio_path "[EMPTY TRANSCRIPT]"]
          else segments0
        { text := join_safe_texts segments, segments := segments,
          language := lang_or_und language }

/-! ### SRT exporter (`segments_to_srt` in `crew_main.py`)

The source writes the joined lines to a file; the embedding returns the
file content.  `timedelta(seconds=s).total_seconds()` is modelled as the
exact rational `s`; Python `int(...)` truncates toward zero and `//`/`%`
are floor division and modulo. -/

/-- Python `int(...)` on a rational: truncation toward zero. -/
def pyTrunc (q : ℚ) : Int :=
  if q < 0 then -(Int.floor (-q)) else Int.floor q

/-- Zero-pad a digit string on the left to width `w`
(the `0`-fill of a Python format spec). -/
def zeroPad (w : Nat) (s : String) : String :=
  if s.length ≥ w then s else String.mk (List.replicate (w - s.length) '0') ++ s

/-- Python `f"{n:0w}"` for an integer `n`: the sign comes before the
zero fill. -/
def pyFmtInt (w : Nat) (n : Int) : String :=
  if n < 0 then "-" ++ zeroPad (w - 1) (toString n.natAbs)
  else zeroPad w (toString n.natAbs)

/-- The helper `fmt_ts` inside `segments_to_srt`: `HH:MM:SS,mmm`. -/
def fmt_ts (seconds : ℚ) : String :=
  let total_seconds : Int := pyTrunc seconds
  let hours := total_seconds.fdiv 3600
  let minutes := (total_seconds.fmod 3600).fdiv 60
  let secs := total_seconds.fmod 60
  let millis := pyTrunc ((seconds - (pyTrunc seconds : ℚ)) * 1000)
  pyFmtInt 2 hours ++ ":" ++ pyFmtInt 2 minutes ++ ":" ++ pyFmtInt 2 secs
    ++ "," ++ pyFmtInt 3 millis

/-- Model of `seg.get("text", "").replace("\n", " ").strip()`. -/
def srt_clean_text (s : Seg) : String :=
  pyStrip (String.mk ((s.seg_text.getD "").data.map
    fun c => if c = '\n' then ' ' else c))

/-- The four lines (index, timing, text, blank) of one SRT block. -/
def srt_block (i : Nat) (s : Seg) : List String :=
  let start := s.seg_start.getD (s.seg_start_time.getD 0)
  let stop := s.seg_end.getD (s.seg_end_time.getD (start + 1))
  [toString i, fmt_ts start ++ " --> " ++ fmt_ts stop, srt_clean_text s, ""]

/-- Embedding of `segments_to_srt`: the content written to the `.srt` file —
blocks numbered from 1, joined by newlines. -/
def segments_to_srt (segments : List Seg) : String :=
  String.intercalate "\n"
    ((segments.enum.map fun p => srt_block (p.1 + 1) p.2).flatten)

/-! ### Audio stitching (`stitch_audio` in `crew_main.py`)

Decoded audio is its duration in milliseconds; the file system is an
environment `fs : String → Option ℚ` returning that duration when the
path names an existing, decodable file (`none` models the `p.exists()`
test failing or `AudioSegment.from_file` raising, both of which skip
the entry).  The final mono/16kHz conversion preserves duration and the
written output is modelled by its path and duration. -/

/-- The observable result of a successful stitch: the output path and
the written file's duration in milliseconds. -/
structure StitchRes where
  path : String
  duration_ms : ℚ
deriving DecidableEq, Repr

/-- Embedding of `stitch_audio`: keep the readable segments in order; if none, warn
and return `None`; else concatenate with a `pause_ms` silence between
consecutive segments and export. -/
def stitch_audio (fs : String → Option ℚ) (audio_paths : List String)
    (out_path : String) (pause_ms : ℚ := 150) : Option StitchRes :=
  let segments := audio_paths.filterMap fs
  match segments with
  | [] => none
  | d :: rest => some ⟨out_path, rest.foldl (fun acc x => acc + pause_ms + x) d⟩

/-! ### Turn orchestration (`run_turn` in `crew_main.py`)

External services are an environment: `nikud` models
`NikudAgent.add_nikud(...)["vocalized"]` (total — the agent ends in a
mock fallback), `tts` models `TTSAgent.synthesize` (may raise: it is
*not* wrapped in `try` on the client side, so a client-side synthesis
error escapes the turn, faithfully to the source), `normalize` models
`ensure_wav_mono_16k` (its failure is only logged), `stt` models
`STTAgent.transcribe` and `cs` models `CustomerServiceAgent.reply`
(both wrapped in `try` by `run_turn`). -/

/-- Result dict of `TTSAgent.synthesize`. -/
structure TtsRes where
  path : String
  duration_ms : Int
  sample_rate : Nat := 16000
deriving DecidableEq, Repr

/-- The service environment one conversation run works against. -/
structure ConvEnv where
  nikud : String → String
  tts : String → String → Except String TtsRes
  normalize : String → Except String Unit
  stt : String → Except String SttOut
  cs : String → Except String CsReply

/-- The per-turn client WAV path, client_<index+1>.wav under the audio directory. -/
def client_wav_name (i : Nat) : String :=
  "outputs/audio/client_" ++ toString (i + 1) ++ ".wav"

/-- The per-turn agent WAV path, agent_<index+1>.wav under the audio directory. -/
def agent_wav_name (i : Nat) : String :=
  "outputs/audio/agent_" ++ toString (i + 1) ++ ".wav"

/-- The fixed technical-difficulty message substituted by `run_turn`
when the CS agent raises. -/
def tech_difficulty_msg : String := "מצטער, יש בעיה טכנית. נא נסה מאוחר יותר."

/-- The local `stt_text` after step 2 of `run_turn`: the stripped
recognized text, or `""` when `transcribe` raised. -/
def stt_text_of (env : ConvEnv) (wav : String) : String :=
  match env.stt wav with
  | .ok o => pyStrip o.text
  | .error _ => ""

/-- Model of `stt_text or client_text`: the text fed to the CS agent (and stored
as the client transcript entry). -/
def cs_input_of (env : ConvEnv) (client_text wav : String) : String :=
  let s := stt_text_of env wav
  if s = "" then client_text else s

/-- The per-turn metadata dict built by `run_turn` (`meta`); `none`
models an absent key.  Wall-clock keys (`ts`, `end_ts`,
`tts_client_time_s`, `tts_agent_time_s`) are outside the embedding. -/
structure TurnMeta where
  turn : Nat
  client_text : String
  client_audio : String
  tts_client_duration_ms : Option Int
  stt_text : Option String
  stt_segments : Option (List Seg)
  stt_error : Option String
  cs_action : Option String
  reply_text : Option String
  cs_error : Option String
  agent_audio : Option String
  tts_agent_duration_ms : Option Int
  tts_agent_error : Option String
deriving DecidableEq, Repr

/-- What one turn produces: its metadata dict, the two transcript
entries appended to `TranscriptAgent`, and the entries passed to
`LoggerAgent.log` (in call order, before redaction). -/
structure TurnResult where
  meta : TurnMeta
  transcript : List (String × String)
  logs : List LogEntry
deriving DecidableEq, Repr

/-- Steps 2–5 of `run_turn` (everything after the client-side
synthesis, which is the only part not wrapped in a `try`).  Total. -/
def run_turn_rest (env : ConvEnv) (turn_index : Nat) (client_text : String)
    (tts_res : TtsRes) : TurnResult :=
  let client_wav := client_wav_name turn_index
  let _norm := env.normalize client_wav
  let stt_r := env.stt client_wav
  let cs_in := cs_input_of env client_text client_wav
  let cs_r := env.cs cs_in
  let reply_text := match cs_r with
    | .ok r => r.reply
    | .error _ => tech_difficulty_msg
  let reply_v := env.nikud reply_text
  let agent_wav := agent_wav_name turn_index
  let tts2 := env.tts reply_v agent_wav
  { meta :=
      { turn := turn_index
        client_text := client_text
        client_audio := client_wav
        tts_client_duration_ms := some tts_res.duration_ms
        stt_text := match stt_r with
          | .ok o => some (pyStrip o.text)
          | .error _ => none
        stt_segments := match stt_r with
          | .ok o => some o.segments
          | .error _ => none
        stt_error := match stt_r with
          | .ok _ => none
          | .error e => some e
        cs_action := match cs_r with
          | .ok r => some r.action
          | .error _ => none
        reply_text := match cs_r with
          | .ok r => some r.reply
          | .error _ => none
        cs_error := match cs_r with
          | .ok _ => none
          | .error e => some e
        agent_audio := match tts2 with
          | .ok _ => some agent_wav
          | .error _ => none
        tts_agent_duration_ms := match tts2 with
          | .ok r => some r.duration_ms
          | .error _ => none
        tts_agent_error := match tts2 with
          | .ok _ => none
          | .error e => some e }
    transcript := [("client", cs_in), ("agent", reply_text)]
    logs :=
      [⟨some client_text, none,
        [("role", "client_tts"), ("turn", toString turn_index),
         ("audio", client_wav)]⟩]
      ++ (match stt_r with
          | .ok o => [⟨none, some (pyStrip o.text),
              [("role", "stt"), ("turn", toString turn_index)]⟩]
          | .error _ => [])
      ++ (match cs_r with
          | .ok r => [⟨some r.reply, none,
              [("role", "cs_decision"), ("turn", toString turn_index),
               ("action", r.action)]⟩]
          | .error _ => [])
      ++ (match tts2 with
          | .ok _ => [⟨some reply_text, none,
              [("role", "agent_tts"), ("turn", toString turn_index),
               ("audio", agent_wav)]⟩]
          | .error _ => []) }

/-- Embedding of `run_turn`: the client-side vocalization and synthesis, then the
guarded remainder.  A client-side synthesis exception escapes the turn
(`Except.error`), as in the source. -/
def run_turn (env : ConvEnv) (turn_index : Nat) (client_text : String) :
    Except String TurnResult :=
  match env.tts (env.nikud client_text) (client_wav_name turn_index) with
  | .error e => .error e
  | .ok tts_res => .ok (run_turn_rest env turn_index client_text tts_res)

/-! ### Conversation runner (`run_conversation` in `crew_main.py`) -/

/-- Embedding of `SupervisorAgent`. -/
structure SupervisorAgent where
  asr_threshold : ℚ
  max_turns : Nat
deriving DecidableEq, Repr

/-- Embedding of `SupervisorAgent.allow_new_turn`. -/
def SupervisorAgent.allow_new_turn (s : SupervisorAgent) (turn : Nat) : Bool :=
  turn < s.max_turns

/-- The default scripted utterances of `ClientAgent`. -/
def default_scripts : List String :=
  [ "אני רוצה לבטל את המנוי לטלוויזיה שלי. אני לא משתמש בזה יותר.",
    "הבנתי — מה עליי לעשות כדי לוודא שבוטל ותשלחו לי אישור?" ]

/-- The `for turn in range(max_turns)` loop of `run_conversation`.
`fuel` is the number of loop indices left, `turn` the current index and
`scripts` the client's remaining utterances (`ClientAgent.next_utterance`
returns them in order and `""` when exhausted; the loop breaks on a
falsy utterance).  Breaks: supervisor check, script exhaustion or empty
utterance, and a closing CS action after the record is appended.  An
exception escaping `run_turn` aborts the run. -/
def conv_loop (env : ConvEnv) (sup : SupervisorAgent) (fuel : Nat)
    (turn : Nat) (scripts : List String) : Except String (List TurnResult) :=
  match fuel with
  | 0 => .ok []
  | fuel + 1 =>
    if sup.allow_new_turn turn = false then .ok []
    else match scripts with
      | [] => .ok []
      | s :: rest =>
        if s = "" then .ok []
        else match run_turn env turn s with
          | .error e => .error e
          | .ok tr =>
            if tr.meta.cs_action = some "close"
                ∨ tr.meta.cs_action = some "goodbye" then .ok [tr]
            else match conv_loop env sup fuel (turn + 1) rest with
              | .error e => .error e
              | .ok l => .ok (tr :: l)

/-- One-step equation of `conv_loop` at positive fuel. -/
theorem conv_loop_succ (env : ConvEnv) (sup : SupervisorAgent) (fuel : Nat)
    (turn : Nat) (scripts : List String) :
    conv_loop env sup (fuel + 1) turn scripts =
      if sup.allow_new_turn turn = false then .ok []
      else match scripts with
        | [] => .ok []
        | s :: rest =>
          if s = "" then .ok []
          else match run_turn env turn s with
            | .error e => .error e
            | .ok tr =>
              if tr.meta.cs_action = some "close"
                  ∨ tr.meta.cs_action = some "goodbye" then .ok [tr]
              else match conv_loop env sup fuel (turn + 1) rest with
                | .error e => .error e
                | .ok l => .ok (tr :: l) := rfl

/-- The `audio_paths` list collected by the loop: per appended turn, the
client audio path then the agent audio path, each when truthy. -/
def collect_audio_paths (metas : List TurnMeta) : List String :=
  metas.flatMap fun m =>
    (if m.client_audio ≠ "" then [m.client_audio] else []) ++
    (match m.agent_audio with
     | some a => if a ≠ "" then [a] else []
     | none => [])

/-- The `srt_candidate_segments` aggregation: for every turn, every
stored segment that has `start`, `end` and `text` keys, re-packed as a
dict with exactly those three keys, in turn order (the
`break once we aggregated` comment in the source is commented out, so
all turns contribute). -/
def srt_candidates (metas : List TurnMeta) : List Seg :=
  metas.flatMap fun t =>
    (t.stt_segments.getD []).filterMap fun s =>
      match s.seg_start, s.seg_end, s.seg_text with
      | some a, some b, some tx => some ⟨some a, none, some b, none, some tx⟩
      | _, _, _ => none

/-- Timestamped transcript JSON path. -/
def trans_json_name (stamp : String) : String :=
  "outputs/transcripts/transcript_" ++ stamp ++ ".json"

/-- Timestamped run-metadata JSON path. -/
def run_meta_name (stamp : String) : String :=
  "outputs/metadata/run_meta_" ++ stamp ++ ".json"

/-- Timestamped stitched-audio path. -/
def stitched_name (stamp : String) : String :=
  "outputs/full_conversation_" ++ stamp ++ ".wav"

/-- Timestamped subtitle path. -/
def srt_file_name (stamp : String) : String :=
  "outputs/transcripts/transcript_" ++ stamp ++ ".srt"

/-- The final artifacts index (`artifacts_index.json`). -/
structure Artifacts where
  transcript_json : String
  logs : String
  run_meta_path : String
  stitched_audio : Option String
  srt : Option String
deriving DecidableEq, Repr

/-- The observable outcome of one completed run. -/
structure RunOutput where
  run_meta_turns : List TurnMeta
  transcript : List (String × String)
  logs_stored : List LogEntry
  stitched : Option StitchRes
  srt_content : Option String
  artifacts : Artifacts
deriving DecidableEq, Repr

/-- Everything `run_conversation` does after the loop: persist
transcript, metadata and logs, stitch the collected audio, export the
SRT when some turn produced well-formed timed segments, and write the
artifacts index (with `None` entries for artifacts not produced). -/
def run_finalize (fs : String → Option ℚ) (stamp : String)
    (results : List TurnResult) : RunOutput :=
  let metas := results.map (·.meta)
  let audio_paths := collect_audio_paths metas
  let stitched := stitch_audio fs audio_paths (stitched_name stamp)
  let cands := srt_candidates metas
  { run_meta_turns := metas
    transcript := results.flatMap (·.transcript)
    logs_stored := (results.flatMap (·.logs)).map redact_entry
    stitched := stitched
    srt_content := if cands = [] then none else some (segments_to_srt cands)
    artifacts :=
      { transcript_json := trans_json_name stamp
        logs := logs_json_name
        run_meta_path := run_meta_name stamp
        stitched_audio := stitched.map (·.path)
        srt := if cands = [] then none else some (srt_file_name stamp) } }

/-- Embedding of `run_conversation(max_turns, ...)`: the supervisor is constructed
with `max_turns=max_turns` (and `asr_threshold=0.6`), the loop runs,
then the post-loop persistence and aggregation. -/
def run_conversation (env : ConvEnv) (fs : String → Option ℚ)
    (stamp : String) (max_turns : Nat) (scripts : List String) :
    Except String RunOutput :=
  let sup : SupervisorAgent := ⟨6 / 10, max_turns⟩
  (conv_loop env sup max_turns 0 scripts).map (run_finalize fs stamp)

/-! ## Claims -/

/-- C5: with no recognition backend (`impl_name == "mock"` or no loaded
model), `transcribe` returns the `{text, segments, language}` dict whose
single mock segment has `start = 0.0` and `end` equal to the measured
WAV duration of the input (0.0 when the file is unreadable), with the
placeholder text; `transcribe` is total, so no exception escapes. -/
theorem claim_C5 (wavEnv : String → Option (Nat × Nat))
    (backend : String → Option String → Except String WhisperRes)
    (agent : STTAgent) (audio_path : String) (language : Option String)
    (h : agent.impl_name = "mock" ∨ agent.model_loaded = false) :
    transcribe wavEnv backend agent audio_path language =
      { text := "[MOCK TRANSCRIPT - STT not available]",
        segments := [{ seg_start := some 0,
                       seg_end := some (wav_duration wavEnv audio_path),
                       seg_text := some "[MOCK TRANSCRIPT - STT not available]" }],
        language := lang_or_und language }
    ∧ (wavEnv audio_path = none → wav_duration wavEnv audio_path = 0) := by
  constructor
  · unfold transcribe
    rw [if_pos h]
    rfl
  · intro h2
    simp [wav_duration, h2]

/-- Witness for C5 at a concrete mock-mode agent and an unreadable
file. -/
theorem claim_C5_witness :
    ((⟨"mock", false⟩ : STTAgent).impl_name = "mock"
      ∨ (⟨"mock", false⟩ : STTAgent).model_loaded = false)
    ∧ (transcribe (fun _ => none) (fun _ _ => .error "unavailable")
        ⟨"mock", false⟩ "outputs/audio/client_1.wav" none =
        { text := "[MOCK TRANSCRIPT - STT not available]",
          segments := [{ seg_start := some 0,
                         seg_end := some (wav_duration (fun _ => none)
                           "outputs/audio/client_1.wav"),
                         seg_text := some "[MOCK TRANSCRIPT - STT not available]" }],
          language := lang_or_und none }
        ∧ ((fun (_ : String) => (none : Option (Nat × Nat)))
              "outputs/audio/client_1.wav" = none →
            wav_duration (fun _ => none) "outputs/audio/client_1.wav" = 0)) :=
  ⟨Or.inl rfl,
   claim_C5 (fun _ => none) (fun _ _ => .error "unavailable")
     ⟨"mock", false⟩ "outputs/audio/client_1.wav" none (Or.inl rfl)⟩

/-- C9: `segments_to_srt` is a pure function of its segment list: two
exports of equal segment lists produce byte-identical file content. -/
theorem claim_C9 (s1 s2 : List Seg) (h : s1 = s2) :
    segments_to_srt s1 = segments_to_srt s2 := by
  rw [h]

/-- Witness for C9 at a concrete segment list. -/
theorem claim_C9_witness :
    segments_to_srt [⟨some 0, none, some (3/2 : ℚ), none, some "hello"⟩] =
      segments_to_srt [⟨some 0, none, some (3/2 : ℚ), none, some "hello"⟩] :=
  claim_C9 _ _ rfl

/-- The `foldl` arithmetic of the stitch loop: starting from the first
segment and appending `pause + x` per further segment. -/
theorem foldl_pause_sum (pause : ℚ) (rest : List ℚ) (d : ℚ) :
    rest.foldl (fun acc x => acc + pause + x) d
      = d + pause * rest.length + rest.sum := by
  induction rest generalizing d with
  | nil => simp
  | cons x xs ih =>
    simp only [List.foldl_cons, ih, List.sum_cons, List.length_cons]
    push_cast
    ring1

/-- C8: stitching inserts one 150 ms silence gap between each pair of
consecutive readable segments, so the output duration is the sum of the
readable segment durations plus `150 * (count - 1)`; in particular two
readable 1000 ms segments stitch to an output of duration ≥ 2150 ms. -/
theorem claim_C8 (fs : String → Option ℚ) (paths : List String)
    (out : String) :
    (∀ segs, paths.filterMap fs = segs → segs ≠ [] →
      stitch_audio fs paths out =
        some ⟨out, segs.sum + 150 * ((segs.length - 1 : Nat) : ℚ)⟩)
    ∧ (paths.filterMap fs = [1000, 1000] →
        ∃ r, stitch_audio fs paths out = some r ∧ 2150 ≤ r.duration_ms) := by
  constructor
  · intro segs hseg hne
    unfold stitch_audio
    rw [hseg]
    match segs, hne with
    | d :: rest, _ =>
      simp only [foldl_pause_sum, List.sum_cons, List.length_cons,
        Nat.add_sub_cancel]
      exact congrArg some (congrArg (StitchRes.mk out) (by ring1))
  · intro h2
    refine ⟨⟨out, 2150⟩, ?_, le_refl _⟩
    unfold stitch_audio
    rw [h2]
    norm_num [foldl_pause_sum]

/-- Witness for C8 at two concrete readable 1000 ms files. -/
theorem claim_C8_witness :
    stitch_audio
      (fun p => if p = "a.wav" ∨ p = "b.wav" then some (1000 : ℚ) else none)
      ["a.wav", "b.wav"] "out.wav" =
        some ⟨"out.wav", [(1000 : ℚ), 1000].sum
          + 150 * ((([(1000 : ℚ), 1000].length - 1 : Nat)) : ℚ)⟩
    ∧ ∃ r, stitch_audio
        (fun p => if p = "a.wav" ∨ p = "b.wav" then some (1000 : ℚ) else none)
        ["a.wav", "b.wav"] "out.wav" = some r ∧ 2150 ≤ r.duration_ms :=
  ⟨(claim_C8 (fun p => if p = "a.wav" ∨ p = "b.wav" then some (1000 : ℚ) else none)
      ["a.wav", "b.wav"] "out.wav").1 [1000, 1000] rfl (by decide),
   (claim_C8 (fun p => if p = "a.wav" ∨ p = "b.wav" then some (1000 : ℚ) else none)
      ["a.wav", "b.wav"] "out.wav").2 rfl⟩

/-- Readable-only filtering of the path list does not change the
stitch: unreadable entries are skipped, not fatal. -/
theorem filterMap_filter_isSome (fs : String → Option ℚ) (paths : List String) :
    (paths.filter fun p => (fs p).isSome).filterMap fs = paths.filterMap fs := by
  induction paths with
  | nil => rfl
  | cons p ps ih =>
    by_cases h : (fs p).isSome
    · cases hfp : fs p with
      | none => rw [hfp] at h; simp at h
      | some v => simp [List.filter_cons, h, List.filterMap_cons, hfp, ih]
    · cases hfp : fs p with
      | none => simp [List.filter_cons, h, List.filterMap_cons, hfp, ih]
      | some v => rw [hfp] at h; simp at h

/-- C6: when no listed audio file is readable, `stitch_audio` returns
`None` (writes nothing) and the artifacts index maps `stitched_audio`
to `None`; unreadable entries of a mixed list are skipped without
affecting the stitch of the readable rest. -/
theorem claim_C6 (fs : String → Option ℚ) (paths : List String)
    (out stamp : String) (results : List TurnResult) :
    ((∀ p ∈ paths, fs p = none) → stitch_audio fs paths out = none)
    ∧ stitch_audio fs paths out =
        stitch_audio fs (paths.filter fun p => (fs p).isSome) out
    ∧ ((∀ p ∈ collect_audio_paths (results.map (·.meta)), fs p = none) →
        (run_finalize fs stamp results).stitched = none
        ∧ (run_finalize fs stamp results).artifacts.stitched_audio = none) := by
  have key : ∀ (l : List String), (∀ p ∈ l, fs p = none) →
      ∀ o, stitch_audio fs l o = none := by
    intro l hl o
    unfold stitch_audio
    have : l.filterMap fs = [] := by
      rw [List.filterMap_eq_nil_iff]
      exact hl
    rw [this]
  refine ⟨fun h => key paths h out, ?_, ?_⟩
  · unfold stitch_audio
    rw [filterMap_filter_isSome]
  · intro h
    have hst : (run_finalize fs stamp results).stitched = none := by
      unfold run_finalize
      exact key _ h _
    refine ⟨hst, ?_⟩
    show ((run_finalize fs stamp results).stitched).map (·.path) = none
    rw [hst]
    rfl

/-- One-step equation of `redactGo` at positive fuel. -/
theorem redactGo_succ (f : Nat) (p : Option Char) (c : Char) (rest : List Char) :
    redactGo (f + 1) p (c :: rest) =
      if c.isDigit then
        redactRun p ((c :: rest).takeWhile Char.isDigit)
            (((c :: rest).dropWhile Char.isDigit).head?)
          ++ redactGo f ((c :: rest).takeWhile Char.isDigit).getLast?
              ((c :: rest).dropWhile Char.isDigit)
      else c :: redactGo f (some c) rest := rfl

/-- Any fuel at least the list length gives the same scan result. -/
theorem redactGo_fuel : ∀ (fuel : Nat) (p : Option Char) (l : List Char),
    l.length ≤ fuel → redactGo fuel p l = redactGo l.length p l := by
  intro fuel
  induction fuel using Nat.strong_induction_on with
  | _ fuel ih =>
    intro p l hl
    match l with
    | [] =>
      match fuel with
      | 0 => rfl
      | _ + 1 => rfl
    | c :: rest =>
      match fuel, hl with
      | 0, hl => exact absurd hl (by simp)
      | fuel + 1, hl =>
        have hrest : rest.length ≤ fuel := by simpa using hl
        rw [List.length_cons, redactGo_succ, redactGo_succ]
        by_cases hdig : c.isDigit = true
        · rw [if_pos hdig, if_pos hdig]
          have hd1 : ((c :: rest).dropWhile Char.isDigit).length ≤ fuel := by
            rw [List.dropWhile_cons_of_pos hdig]
            exact le_trans (List.dropWhile_sublist _).length_le hrest
          have hd2 : ((c :: rest).dropWhile Char.isDigit).length ≤ rest.length := by
            rw [List.dropWhile_cons_of_pos hdig]
            exact (List.dropWhile_sublist _).length_le
          rw [ih fuel (Nat.lt_succ_self _) _ _ hd1,
            ih rest.length (Nat.lt_succ_of_le hrest) _ _ hd2]
        · rw [if_neg hdig, if_neg hdig]
          rw [ih fuel (Nat.lt_succ_self _) _ _ hrest,
            ih rest.length (Nat.lt_succ_of_le hrest) _ _ (le_refl _)]

/-- The character preceding the remainder of a scan: the last element
of the consumed part `a` when it exists, else the earlier previous
character `p`. -/
def lastOr (p : Option Char) : List Char → Option Char
  | [] => p
  | c :: rest => lastOr (some c) rest

/-- The scan copies a digit-free chunk unchanged and continues with the
chunk's last character as the new previous character. -/
theorem redactGo_append_nodigit (t : List Char) :
    ∀ (a : List Char) (fuel : Nat) (p : Option Char),
      (a ++ t).length ≤ fuel → (∀ c ∈ a, c.isDigit = false) →
      redactGo fuel p (a ++ t) = a ++ redactGo t.length (lastOr p a) t := by
  intro a
  induction a with
  | nil =>
    intro fuel p hf _
    simpa using redactGo_fuel fuel p t (by simpa using hf)
  | cons c a2 ih =>
    intro fuel p hf h
    match fuel, hf with
    | 0, hf => exact absurd hf (by simp)
    | fuel + 1, hf =>
      have hc : c.isDigit = false := h c (by simp)
      rw [List.cons_append, redactGo_succ, if_neg (by simp [hc]), lastOr,
        ih fuel (some c) (by simpa using hf) (fun d hd => h d (by simp [hd]))]
      rfl

/-- A digit-free list is left unchanged by the scan. -/
theorem redactGo_nodigit (a : List Char) (fuel : Nat) (p : Option Char)
    (hf : a.length ≤ fuel) (h : ∀ c ∈ a, c.isDigit = false) :
    redactGo fuel p a = a := by
  have h2 := redactGo_append_nodigit [] a fuel p (by simpa using hf) h
  rw [List.append_nil] at h2
  rw [h2]
  show a ++ ([] : List Char) = a
  exact List.append_nil a

/-- A concrete environment whose reply selector raises (and whose
recognizer raises, so the CS input falls back to the client text). -/
def cs_fail_env : ConvEnv :=
  { nikud := fun t => t
    tts := fun _ n => .ok { path := n, duration_ms := 300 }
    normalize := fun _ => .ok ()
    stt := fun _ => .error "stt down"
    cs := fun _ => .error "cs down" }

/-- C2 (counterexample): when the reply selector raises inside
`run_turn`, the produced Turn Record's `cs_action` key is absent
(`None`), not the claimed substituted action `retry` — the `retry`
substitution lives in `CustomerServiceAgent.reply`'s own fallback, which
is no longer reachable once `reply` has raised. -/
theorem claim_C2_counterexample :
    (run_turn cs_fail_env 0 "שלום").map (fun tr => tr.meta.cs_action)
      = Except.ok none
    ∧ (run_turn cs_fail_env 0 "שלום").map (fun tr => tr.meta.cs_action)
      ≠ Except.ok (some "retry")
    ∧ (run_turn cs_fail_env 0 "שלום").map (fun tr => tr.transcript)
      = Except.ok [("client", "שלום"), ("agent", tech_difficulty_msg)] := by
  exact ⟨rfl, fun h => Option.noConfusion (Except.ok.inj h), rfl⟩

/-- C2 (amended): if the reply selector call raises inside `run_turn`
(and the client-side synthesis succeeded), the turn still completes
without an escaping exception; the technical-difficulty message becomes
the working reply text, so the transcript receives both entries with it
as the agent line; and the Turn Record stores `cs_error` while its
`cs_action` and `reply_text` keys stay absent (no `retry` action is
recorded). -/
theorem claim_C2 (env : ConvEnv) (i : Nat) (client_text e : String)
    (tts_res : TtsRes)
    (htts : env.tts (env.nikud client_text) (client_wav_name i) = .ok tts_res)
    (hcs : env.cs (cs_input_of env client_text (client_wav_name i)) = .error e) :
    run_turn env i client_text = .ok (run_turn_rest env i client_text tts_res)
    ∧ (run_turn_rest env i client_text tts_res).transcript
        = [("client", cs_input_of env client_text (client_wav_name i)),
           ("agent", tech_difficulty_msg)]
    ∧ (run_turn_rest env i client_text tts_res).meta.cs_action = none
    ∧ (run_turn_rest env i client_text tts_res).meta.reply_text = none
    ∧ (run_turn_rest env i client_text tts_res).meta.cs_error = some e := by
  refine ⟨?_, ?_, ?_, ?_, ?_⟩
  · rw [run_turn, htts]
  · simp only [run_turn_rest, hcs]
  · simp only [run_turn_rest, hcs]
  · simp only [run_turn_rest, hcs]
  · simp only [run_turn_rest, hcs]

/-- The orchestrator `run_turn` stamps the loop index into the Turn Record. -/
theorem run_turn_ok_turn (env : ConvEnv) (i : Nat) (s : String)
    (tr : TurnResult) (h : run_turn env i s = .ok tr) : tr.meta.turn = i := by
  rw [run_turn] at h
  cases htts : env.tts (env.nikud s) (client_wav_name i) with
  | error e =>
    rw [htts] at h
    exact absurd h (by simp)
  | ok r =>
    rw [htts] at h
    have h2 : run_turn_rest env i s r = tr := Except.ok.inj h
    rw [← h2]
    rfl

/-- The `cs_action` key of a completed turn is absent or comes from a
successful reply-selector call. -/
theorem run_turn_ok_cs_action (env : ConvEnv) (i : Nat) (s : String)
    (tr : TurnResult) (h : run_turn env i s = .ok tr) :
    tr.meta.cs_action = none
    ∨ ∃ u r, env.cs u = .ok r ∧ tr.meta.cs_action = some r.action := by
  rw [run_turn] at h
  cases htts : env.tts (env.nikud s) (client_wav_name i) with
  | error e =>
    rw [htts] at h
    exact absurd h (by simp)
  | ok tres =>
    rw [htts] at h
    have h2 : run_turn_rest env i s tres = tr := Except.ok.inj h
    cases hcs : env.cs (cs_input_of env s (client_wav_name i)) with
    | error e =>
      left
      rw [← h2]
      simp only [run_turn_rest, hcs]
    | ok r =>
      right
      refine ⟨cs_input_of env s (client_wav_name i), r, hcs, ?_⟩
      rw [← h2]
      simp only [run_turn_rest, hcs]

/-- Shape of one completed conversation loop: with no closing CS action
and no empty scripted utterance, the loop performs exactly
`min fuel (min |scripts| (cap - turn))` turns and stamps consecutive
indices from `turn`. -/
theorem conv_loop_length (env : ConvEnv) (sup : SupervisorAgent)
    (hnc : ∀ u r, env.cs u = .ok r → r.action ≠ "close" ∧ r.action ≠ "goodbye") :
    ∀ (fuel turn : Nat) (scripts : List String) (l : List TurnResult),
      conv_loop env sup fuel turn scripts = .ok l →
      (∀ s ∈ scripts, s ≠ "") →
      l.length = min fuel (min scripts.length (sup.max_turns - turn))
      ∧ l.map (fun tr => tr.meta.turn) = List.range' turn l.length := by
  intro fuel
  induction fuel with
  | zero =>
    intro turn scripts l h _
    have h2 : ([] : List TurnResult) = l := Except.ok.inj h
    rw [← h2]
    simp
  | succ fuel ih =>
    intro turn scripts l h hs
    by_cases hallow : sup.allow_new_turn turn = false
    · rw [conv_loop_succ, if_pos hallow] at h
      have h2 : ([] : List TurnResult) = l := Except.ok.inj h
      have hcap : sup.max_turns - turn = 0 := by
        rw [SupervisorAgent.allow_new_turn] at hallow
        have h3 : ¬ (turn < sup.max_turns) := by
          intro h4
          simp [h4] at hallow
        omega
      rw [← h2]
      simp [hcap]
    · have hturn : turn < sup.max_turns := by
        by_contra h4
        apply hallow
        rw [SupervisorAgent.allow_new_turn]
        exact decide_eq_false h4
      match scripts, hs with
      | [], _ =>
        rw [conv_loop_succ, if_neg hallow] at h
        have h2 : ([] : List TurnResult) = l := Except.ok.inj h
        rw [← h2]
        simp
      | s :: rest, hs =>
        rw [conv_loop_succ, if_neg hallow] at h
        have hsne : s ≠ "" := hs s (by simp)
        have h4 : (if s = ""
            then (Except.ok [] : Except String (List TurnResult))
            else match run_turn env turn s with
              | .error e => .error e
              | .ok tr =>
                if tr.meta.cs_action = some "close"
                    ∨ tr.meta.cs_action = some "goodbye" then .ok [tr]
                else match conv_loop env sup fuel (turn + 1) rest with
                  | .error e => .error e
                  | .ok l => .ok (tr :: l)) = .ok l := h
        clear h
        rw [if_neg hsne] at h4
        have h := h4
        clear h4
        cases hrt : run_turn env turn s with
        | error e =>
          rw [hrt] at h
          exact absurd (h : Except.error e = Except.ok l) (by simp)
        | ok tr =>
          rw [hrt] at h
          have hclose : ¬ (tr.meta.cs_action = some "close"
              ∨ tr.meta.cs_action = some "goodbye") := by
            rcases run_turn_ok_cs_action env turn s tr hrt with hnone | ⟨u, r, hu, ha⟩
            · rw [hnone]
              simp
            · rw [ha]
              rcases hnc u r hu with ⟨hc1, hc2⟩
              simp [hc1, hc2]
          have h5 : (if tr.meta.cs_action = some "close"
              ∨ tr.meta.cs_action = some "goodbye"
              then (Except.ok [tr] : Except String (List TurnResult))
              else match conv_loop env sup fuel (turn + 1) rest with
                | .error e => .error e
                | .ok l => .ok (tr :: l)) = .ok l := h
          clear h
          rw [if_neg hclose] at h5
          cases hrec : conv_loop env sup fuel (turn + 1) rest with
          | error e =>
            rw [hrec] at h5
            exact absurd (h5 : Except.error e = Except.ok l) (by simp)
          | ok l2 =>
            rw [hrec] at h5
            have h2 : tr :: l2 = l := Except.ok.inj h5
            obtain ⟨hlen, hmap⟩ := ih (turn + 1) rest l2 hrec
              (fun x hx => hs x (by simp [hx]))
            rw [← h2]
            constructor
            · simp only [List.length_cons, hlen, List.length_cons]
              omega
            · simp only [List.map_cons, hmap, List.length_cons,
                run_turn_ok_turn env turn s tr hrt]
              rw [List.range'_succ]

/-- Turn count and indices of a completed `run_conversation`: helper
shared by the claims about the loop. -/
theorem run_conversation_turns (env : ConvEnv) (fs : String → Option ℚ)
    (stamp : String) (max_turns : Nat) (scripts : List String)
    (out : RunOutput)
    (hnc : ∀ u r, env.cs u = .ok r → r.action ≠ "close" ∧ r.action ≠ "goodbye")
    (hs : ∀ s ∈ scripts, s ≠ "")
    (hrun : run_conversation env fs stamp max_turns scripts = .ok out) :
    out.run_meta_turns.length = min max_turns (min scripts.length max_turns)
    ∧ out.run_meta_turns.map (fun mt => mt.turn)
      = List.range out.run_meta_turns.length := by
  have hloopmap : (conv_loop env ⟨6 / 10, max_turns⟩ max_turns 0 scripts).map
      (run_finalize fs stamp) = .ok out := hrun
  cases hloop : conv_loop env ⟨6 / 10, max_turns⟩ max_turns 0 scripts with
  | error e =>
    rw [hloop] at hloopmap
    exact Except.noConfusion (hloopmap : Except.error e = .ok out)
  | ok l =>
    rw [hloop] at hloopmap
    have hout : run_finalize fs stamp l = out := Except.ok.inj hloopmap
    obtain ⟨hlen, hmap⟩ := conv_loop_length env ⟨6 / 10, max_turns⟩ hnc
      max_turns 0 scripts l hloop hs
    rw [← hout]
    have hmetas : (run_finalize fs stamp l).run_meta_turns
        = l.map (fun tr => tr.meta) := rfl
    rw [hmetas]
    constructor
    · rw [List.length_map, hlen]
      rfl
    · rw [List.map_map]
      have hcomp : ((fun mt => mt.turn) ∘ fun (tr : TurnResult) => tr.meta)
          = fun tr => tr.meta.turn := rfl
      rw [hcomp, List.length_map, List.range_eq_range']
      exact hmap

/-- C1: a completed run with no closing CS action and genuine scripted
utterances produces exactly
`min(max_turns, available utterances, supervisor cap)` Turn Records
(the supervisor is constructed with `max_turns = max_turns`), with
contiguous `turn` indices from 0. -/
theorem claim_C1 (env : ConvEnv) (fs : String → Option ℚ)
    (stamp : String) (max_turns : Nat) (scripts : List String)
    (out : RunOutput)
    (hnc : ∀ u r, env.cs u = .ok r → r.action ≠ "close" ∧ r.action ≠ "goodbye")
    (hs : ∀ s ∈ scripts, s ≠ "")
    (hrun : run_conversation env fs stamp max_turns scripts = .ok out) :
    out.run_meta_turns.length = min max_turns (min scripts.length max_turns)
    ∧ out.run_meta_turns.map (fun mt => mt.turn)
      = List.range out.run_meta_turns.length :=
  run_conversation_turns env fs stamp max_turns scripts out hnc hs hrun

/-- The scripted reply selector only emits `verify`, `explain` or
`confirm`. -/
theorem scripted_action_cases (c : Nat) (u : String) :
    (scripted_reply_for c u).action = "verify"
    ∨ (scripted_reply_for c u).action = "explain"
    ∨ (scripted_reply_for c u).action = "confirm" := by
  simp only [scripted_reply_for]
  split
  · exact Or.inl rfl
  · split
    · exact Or.inl rfl
    · split
      · exact Or.inr (Or.inl rfl)
      · split
        · have hlen : extra_replies.length = 3 := rfl
          rw [hlen]
          have h3 : c % 3 = 0 ∨ c % 3 = 1 ∨ c % 3 = 2 := by omega
          rcases h3 with h | h | h <;> rw [h] <;> decide
        · exact Or.inr (Or.inl rfl)

/-- The scripted reply selector never emits a closing action. -/
theorem scripted_action_ne_close (c : Nat) (u : String) :
    (scripted_reply_for c u).action ≠ "close"
    ∧ (scripted_reply_for c u).action ≠ "goodbye" := by
  rcases scripted_action_cases c u with h | h | h <;> rw [h] <;>
    exact ⟨by decide, by decide⟩

/-- C10: the scripted reply path only returns actions in
`{verify, explain, confirm}` — never `close` — so in scripted mode the
loop's close-condition break never fires and a completed run performs
the full `min(max_turns, available utterances, supervisor cap)` turns,
ending only by turn cap or script exhaustion. -/
theorem claim_C10 (env : ConvEnv) (ch : String → Nat)
    (fs : String → Option ℚ) (stamp : String) (max_turns : Nat)
    (scripts : List String) (out : RunOutput)
    (hcs : ∀ u, env.cs u = .ok (cs_reply (ch u) u))
    (hs : ∀ s ∈ scripts, s ≠ "")
    (hrun : run_conversation env fs stamp max_turns scripts = .ok out) :
    (∀ c u, ((scripted_reply_for c u).action = "verify"
        ∨ (scripted_reply_for c u).action = "explain"
        ∨ (scripted_reply_for c u).action = "confirm")
      ∧ (scripted_reply_for c u).action ≠ "close")
    ∧ out.run_meta_turns.length
      = min max_turns (min scripts.length max_turns) := by
  have hnc : ∀ u r, env.cs u = .ok r →
      r.action ≠ "close" ∧ r.action ≠ "goodbye" := by
    intro u r h
    have h2 : cs_reply (ch u) u = r := Except.ok.inj ((hcs u).symm.trans h)
    rw [← h2]
    exact scripted_action_ne_close (ch u) u
  exact ⟨fun c u => ⟨scripted_action_cases c u, (scripted_action_ne_close c u).1⟩,
    (run_conversation_turns env fs stamp max_turns scripts out hnc hs hrun).1⟩

/-- A concrete scripted-mode demo environment: mock recognizer (via the
embedded `transcribe`), always-succeeding synthesizer, scripted CS
agent. -/
def demoEnv : ConvEnv :=
  { nikud := fun t => t ++ " (ניקוד_המחשה)"
    tts := fun _ n => .ok { path := n, duration_ms := 1000 }
    normalize := fun _ => .ok ()
    stt := fun p => .ok (transcribe (fun _ => some (16000, 16000))
      (fun _ _ => .error "no backend") ⟨"mock", false⟩ p none)
    cs := fun u => .ok (cs_reply 0 u) }

/-- Witness for C1: the demo run with 3 allowed turns and the 2 default
scripted utterances performs exactly 2 turns, indexed `[0, 1]`. -/
theorem claim_C1_witness :
    (run_conversation demoEnv (fun _ => some 1000) "S" 3 default_scripts).map
        (fun o => o.run_meta_turns.length)
      = .ok (min 3 (min default_scripts.length 3))
    ∧ (run_conversation demoEnv (fun _ => some 1000) "S" 3 default_scripts).map
        (fun o => o.run_meta_turns.map (fun mt => mt.turn))
      = .ok (List.range (min 3 (min default_scripts.length 3))) := by
  have hnc : ∀ u r, demoEnv.cs u = .ok r →
      r.action ≠ "close" ∧ r.action ≠ "goodbye" := by
    intro u r h
    have h2 : cs_reply 0 u = r := Except.ok.inj h
    rw [← h2]
    exact scripted_action_ne_close 0 u
  cases hr : run_conversation demoEnv (fun _ => some 1000) "S" 3 default_scripts with
  | error e =>
    have hok : (run_conversation demoEnv (fun _ => some 1000) "S" 3
        default_scripts).isOk = true := by decide
    rw [hr] at hok
    exact absurd hok (by simp [Except.isOk, Except.toBool])
  | ok out =>
    obtain ⟨h1, h2⟩ := claim_C1 demoEnv (fun _ => some 1000) "S" 3
      default_scripts out hnc (by decide) hr
    constructor
    · simp only [Except.map]
      rw [h1]
    · simp only [Except.map]
      rw [h2, h1]

/-- Witness for C10 at the demo environment. -/
theorem claim_C10_witness :
    (∀ u, demoEnv.cs u = .ok (cs_reply 0 u))
    ∧ (∀ s ∈ default_scripts, s ≠ "")
    ∧ (run_conversation demoEnv (fun _ => some 1000) "S2" 3 default_scripts).map
        (fun o => o.run_meta_turns.length)
      = .ok (min 3 (min default_scripts.length 3)) := by
  refine ⟨fun u => rfl, by decide, ?_⟩
  cases hr : run_conversation demoEnv (fun _ => some 1000) "S2" 3 default_scripts with
  | error e =>
    have hok : (run_conversation demoEnv (fun _ => some 1000) "S2" 3
        default_scripts).isOk = true := by decide
    rw [hr] at hok
    exact absurd hok (by simp [Except.isOk, Except.toBool])
  | ok out =>
    have h := (claim_C10 demoEnv (fun _ => 0) (fun _ => some 1000) "S2" 3
      default_scripts out (fun u => rfl) (by decide) hr).2
    simp only [Except.map]
    rw [h]

/-- A stored segment having the three keys `start`, `end`, `text` —
the well-formedness the SRT aggregation filters on.  The embedded
recognizer only ever produces such segments. -/
def seg_wf (s : Seg) : Prop :=
  s.seg_start.isSome = true ∧ s.seg_end.isSome = true
    ∧ s.seg_text.isSome = true

instance (s : Seg) : Decidable (seg_wf s) := by
  unfold seg_wf
  infer_instance

/-- Normalized raw segments always carry the three keys. -/
theorem normalize_raw_seg_wf (wavEnv : String → Option (Nat × Nat))
    (path : String) (r : RawSeg) :
    seg_wf (normalize_raw_seg wavEnv path r) := by
  cases r with
  | dict a b c d e =>
    simp only [normalize_raw_seg]
    split
    · exact ⟨rfl, rfl, rfl⟩
    · exact ⟨rfl, rfl, rfl⟩
  | nonDict r2 => exact ⟨rfl, rfl, rfl⟩

/-- Every branch of `transcribe` returns segments with the three keys
(the §4.3 recognizer contract). -/
theorem transcribe_segments_wf (wavEnv : String → Option (Nat × Nat))
    (backend : String → Option String → Except String WhisperRes)
    (agent : STTAgent) (path : String) (lang : Option String) :
    ∀ s ∈ (transcribe wavEnv backend agent path lang).segments, seg_wf s := by
  intro s hs
  simp only [transcribe] at hs
  split at hs
  · simp only [List.mem_singleton] at hs
    rw [hs]
    exact ⟨rfl, rfl, rfl⟩
  · split at hs
    · simp only [List.mem_singleton] at hs
      rw [hs]
      exact ⟨rfl, rfl, rfl⟩
    · split at hs
      · simp only [List.mem_singleton] at hs
        rw [hs]
        exact ⟨rfl, rfl, rfl⟩
      · split at hs
        · simp only [List.mem_singleton] at hs
          rw [hs]
          exact ⟨rfl, rfl, rfl⟩
        · obtain ⟨r, _, hr2⟩ := List.mem_map.mp hs
          rw [← hr2]
          exact normalize_raw_seg_wf wavEnv path r

/-- The segments a completed turn stores are recognizer output. -/
theorem run_turn_segments_wf (env : ConvEnv) (i : Nat) (txt : String)
    (tr : TurnResult)
    (hstt : ∀ p o, env.stt p = .ok o → ∀ s ∈ o.segments, seg_wf s)
    (h : run_turn env i txt = .ok tr) :
    ∀ segs, tr.meta.stt_segments = some segs → ∀ s ∈ segs, seg_wf s := by
  rw [run_turn] at h
  cases htts : env.tts (env.nikud txt) (client_wav_name i) with
  | error e =>
    rw [htts] at h
    exact Except.noConfusion (h : Except.error e = .ok tr)
  | ok tres =>
    rw [htts] at h
    have h2 : run_turn_rest env i txt tres = tr := Except.ok.inj h
    intro segs hsegs s hs
    rw [← h2] at hsegs
    cases hso : env.stt (client_wav_name i) with
    | error e =>
      have hnone : (run_turn_rest env i txt tres).meta.stt_segments = none := by
        simp only [run_turn_rest, hso]
      rw [hnone] at hsegs
      exact Option.noConfusion hsegs
    | ok o =>
      have hsome : (run_turn_rest env i txt tres).meta.stt_segments
          = some o.segments := by
        simp only [run_turn_rest, hso]
      rw [hsome] at hsegs
      have h3 : o.segments = segs := Option.some.inj hsegs
      exact hstt _ o hso s (h3 ▸ hs)

/-- Every segment stored by a completed conversation loop has the three
keys, provided the recognizer only returns such segments. -/
theorem conv_loop_segments_wf (env : ConvEnv) (sup : SupervisorAgent)
    (hstt : ∀ p o, env.stt p = .ok o → ∀ s ∈ o.segments, seg_wf s) :
    ∀ (fuel turn : Nat) (scripts : List String) (l : List TurnResult),
      conv_loop env sup fuel turn scripts = .ok l →
      ∀ tr ∈ l, ∀ segs, tr.meta.stt_segments = some segs →
        ∀ s ∈ segs, seg_wf s := by
  intro fuel
  induction fuel with
  | zero =>
    intro turn scripts l h tr htr
    have h2 : ([] : List TurnResult) = l := Except.ok.inj h
    rw [← h2] at htr
    simp at htr
  | succ fuel ih =>
    intro turn scripts l h tr htr
    by_cases hallow : sup.allow_new_turn turn = false
    · rw [conv_loop_succ, if_pos hallow] at h
      have h2 : ([] : List TurnResult) = l := Except.ok.inj h
      rw [← h2] at htr
      simp at htr
    · match scripts with
      | [] =>
        rw [conv_loop_succ, if_neg hallow] at h
        have h2 : ([] : List TurnResult) = l := Except.ok.inj h
        rw [← h2] at htr
        simp at htr
      | s :: rest =>
        rw [conv_loop_succ, if_neg hallow] at h
        have h4 : (if s = ""
            then (Except.ok [] : Except String (List TurnResult))
            else match run_turn env turn s with
              | .error e => .error e
              | .ok tr2 =>
                if tr2.meta.cs_action = some "close"
                    ∨ tr2.meta.cs_action = some "goodbye" then .ok [tr2]
                else match conv_loop env sup fuel (turn + 1) rest with
                  | .error e => .error e
                  | .ok l2 => .ok (tr2 :: l2)) = .ok l := h
        clear h
        by_cases hsne : s = ""
        · rw [if_pos hsne] at h4
          have h2 : ([] : List TurnResult) = l := Except.ok.inj h4
          rw [← h2] at htr
          simp at htr
        · rw [if_neg hsne] at h4
          cases hrt : run_turn env turn s with
          | error e =>
            rw [hrt] at h4
            exact Except.noConfusion (h4 : Except.error e = .ok l)
          | ok tr2 =>
            rw [hrt] at h4
            have h5 : (if tr2.meta.cs_action = some "close"
                ∨ tr2.meta.cs_action = some "goodbye"
                then (Except.ok [tr2] : Except String (List TurnResult))
                else match conv_loop env sup fuel (turn + 1) rest with
                  | .error e => .error e
                  | .ok l2 => .ok (tr2 :: l2)) = .ok l := h4
            clear h4
            by_cases hcl : tr2.meta.cs_action = some "close"
                ∨ tr2.meta.cs_action = some "goodbye"
            · rw [if_pos hcl] at h5
              have h2 : [tr2] = l := Except.ok.inj h5
              rw [← h2] at htr
              simp at htr
              rw [htr]
              exact run_turn_segments_wf env turn s tr2 hstt hrt
            · rw [if_neg hcl] at h5
              cases hrec : conv_loop env sup fuel (turn + 1) rest with
              | error e =>
                rw [hrec] at h5
                exact Except.noConfusion (h5 : Except.error e = .ok l)
              | ok l2 =>
                rw [hrec] at h5
                have h2 : tr2 :: l2 = l := Except.ok.inj h5
                rw [← h2] at htr
                rcases List.mem_cons.mp htr with h6 | h6
                · rw [h6]
                  exact run_turn_segments_wf env turn s tr2 hstt hrt
                · exact ih (turn + 1) rest l2 hrec tr h6

/-- On segments with all three keys, the SRT aggregation's filter keeps
every segment, re-packed with exactly the keys `start`, `end`,
`text`. -/
theorem filterMap_proj_of_wf (segs : List Seg)
    (h : ∀ s ∈ segs, seg_wf s) :
    (segs.filterMap fun s =>
      match s.seg_start, s.seg_end, s.seg_text with
      | some a, some b, some tx =>
        some (⟨some a, none, some b, none, some tx⟩ : Seg)
      | _, _, _ => none)
    = segs.map fun s =>
        (⟨s.seg_start, none, s.seg_end, none, s.seg_text⟩ : Seg) := by
  induction segs with
  | nil => rfl
  | cons s rest ih =>
    obtain ⟨h1, h2, h3⟩ := h s (by simp)
    obtain ⟨a, ha⟩ := Option.isSome_iff_exists.mp h1
    obtain ⟨b, hb⟩ := Option.isSome_iff_exists.mp h2
    obtain ⟨tx, htx⟩ := Option.isSome_iff_exists.mp h3
    simp only [List.filterMap_cons, List.map_cons, ha, hb, htx]
    rw [ih fun x hx => h x (by simp [hx])]

/-- The aggregation `srt_candidates` over well-keyed turns is the plain concatenation
of every turn's segments, re-packed. -/
theorem srt_candidates_of_wf : ∀ (ms : List TurnMeta),
    (∀ t ∈ ms, ∀ s ∈ t.stt_segments.getD [], seg_wf s) →
    srt_candidates ms
      = ms.flatMap fun t => (t.stt_segments.getD []).map
          fun s => (⟨s.seg_start, none, s.seg_end, none, s.seg_text⟩ : Seg) := by
  intro ms
  induction ms with
  | nil => intro _; rfl
  | cons m rest ih =>
    intro h
    simp only [srt_candidates, List.flatMap_cons]
    rw [filterMap_proj_of_wf _ (h m (by simp))]
    have ih2 := ih fun t ht => h t (by simp [ht])
    simp only [srt_candidates] at ih2
    rw [ih2]

/-- C3: after the loop, if some Turn Record has a non-empty
`stt_segments` list then exactly one subtitle file is produced, whose
content is `segments_to_srt` of the well-formed segments of every turn
concatenated in turn order (numbered from 1, `HH:MM:SS,mmm`
timestamps, by definition of `segments_to_srt`), and the artifacts
index maps `srt` to its path; if no turn has segments, no subtitle file
is produced and the index records `None`.  The hypothesis `hstt` is the
recognizer contract (§4.3), discharged for the embedded recognizer by
`transcribe_segments_wf`. -/
theorem claim_C3 (env : ConvEnv) (fs : String → Option ℚ) (stamp : String)
    (max_turns : Nat) (scripts : List String) (out : RunOutput)
    (hstt : ∀ p o, env.stt p = .ok o → ∀ s ∈ o.segments, seg_wf s)
    (hrun : run_conversation env fs stamp max_turns scripts = .ok out) :
    ((∃ t ∈ out.run_meta_turns, t.stt_segments.getD [] ≠ []) →
      out.srt_content
        = some (segments_to_srt (srt_candidates out.run_meta_turns))
      ∧ out.artifacts.srt = some (srt_file_name stamp)
      ∧ srt_candidates out.run_meta_turns
        = out.run_meta_turns.flatMap fun t => (t.stt_segments.getD []).map
            fun s => (⟨s.seg_start, none, s.seg_end, none, s.seg_text⟩ : Seg))
    ∧ ((∀ t ∈ out.run_meta_turns, t.stt_segments.getD [] = []) →
      out.srt_content = none ∧ out.artifacts.srt = none) := by
  have hloopmap : (conv_loop env ⟨6 / 10, max_turns⟩ max_turns 0 scripts).map
      (run_finalize fs stamp) = .ok out := hrun
  cases hloop : conv_loop env ⟨6 / 10, max_turns⟩ max_turns 0 scripts with
  | error e =>
    rw [hloop] at hloopmap
    exact Except.noConfusion (hloopmap : Except.error e = .ok out)
  | ok l =>
    rw [hloop] at hloopmap
    have hout : run_finalize fs stamp l = out := Except.ok.inj hloopmap
    rw [← hout]
    have hmetas : (run_finalize fs stamp l).run_meta_turns
        = l.map (fun tr => tr.meta) := rfl
    have hsc : (run_finalize fs stamp l).srt_content
        = (if srt_candidates (l.map (fun tr => tr.meta)) = [] then none
           else some (segments_to_srt
             (srt_candidates (l.map (fun tr => tr.meta))))) := rfl
    have hart : (run_finalize fs stamp l).artifacts.srt
        = (if srt_candidates (l.map (fun tr => tr.meta)) = [] then none
           else some (srt_file_name stamp)) := rfl
    have hwf : ∀ t ∈ l.map (fun tr => tr.meta),
        ∀ s ∈ t.stt_segments.getD [], seg_wf s := by
      intro t ht s hs
      obtain ⟨tr, htr, htm⟩ := List.mem_map.mp ht
      cases hsegs : t.stt_segments with
      | none =>
        rw [hsegs] at hs
        simp at hs
      | some segs =>
        refine conv_loop_segments_wf env ⟨6 / 10, max_turns⟩ hstt
          max_turns 0 scripts l hloop tr htr segs ?_ s ?_
        · rw [htm]
          exact hsegs
        · rw [hsegs] at hs
          simpa using hs
    have hcand := srt_candidates_of_wf (l.map (fun tr => tr.meta)) hwf
    constructor
    · rintro ⟨t0, ht0, hne⟩
      rw [hmetas] at ht0
      have hnonnil : srt_candidates (l.map (fun tr => tr.meta)) ≠ [] := by
        rw [hcand]
        intro hnil
        rw [List.flatMap_eq_nil_iff] at hnil
        have h7 := hnil t0 ht0
        rw [List.map_eq_nil_iff] at h7
        exact hne h7
      rw [hmetas, hsc, hart, if_neg hnonnil, if_neg hnonnil]
      exact ⟨rfl, rfl, hcand⟩
    · intro hall
      rw [hmetas] at hall
      have hnil : srt_candidates (l.map (fun tr => tr.meta)) = [] := by
        simp only [srt_candidates]
        rw [List.flatMap_eq_nil_iff]
        intro t ht
        rw [hall t ht]
        rfl
      rw [hsc, hart, if_pos hnil, if_pos hnil]
      exact ⟨rfl, rfl⟩

/-- Witness for C3: the demo run (mock recognizer, so every turn has
one timed segment) produces the subtitle content aggregated over all
turns, and the artifacts index records its path. -/
theorem claim_C3_witness :
    (run_conversation demoEnv (fun _ => some 1000) "S3" 3 default_scripts).map
      (fun o => decide (o.srt_content
          = some (segments_to_srt (srt_candidates o.run_meta_turns))
        ∧ o.artifacts.srt = some (srt_file_name "S3")))
      = .ok true := by
  have hstt : ∀ p o, demoEnv.stt p = .ok o → ∀ s ∈ o.segments, seg_wf s := by
    intro p o h s hs
    have h2 : transcribe (fun _ => some (16000, 16000))
        (fun _ _ => .error "no backend") ⟨"mock", false⟩ p none = o :=
      Except.ok.inj h
    rw [← h2] at hs
    exact transcribe_segments_wf _ _ _ _ _ s hs
  cases hr : run_conversation demoEnv (fun _ => some 1000) "S3" 3
      default_scripts with
  | error e =>
    have hok : (run_conversation demoEnv (fun _ => some 1000) "S3" 3
        default_scripts).isOk = true := by decide
    rw [hr] at hok
    exact absurd hok (by simp [Except.isOk, Except.toBool])
  | ok out =>
    have hex : ∃ t ∈ out.run_meta_turns, t.stt_segments.getD [] ≠ [] := by
      have h0 : (run_conversation demoEnv (fun _ => some 1000) "S3" 3
          default_scripts).map
            (fun o => o.run_meta_turns.any
              fun t => !(t.stt_segments.getD []).isEmpty) = .ok true := rfl
      rw [hr] at h0
      have h1 : (out.run_meta_turns.any
          fun t => !(t.stt_segments.getD []).isEmpty) = true :=
        Except.ok.inj h0
      rw [List.any_eq_true] at h1
      obtain ⟨t, ht, hb⟩ := h1
      refine ⟨t, ht, fun hnil => ?_⟩
      rw [hnil] at hb
      simp at hb
    have hres := (claim_C3 demoEnv (fun _ => some 1000) "S3" 3
      default_scripts out hstt hr).1 hex
    simp only [Except.map]
    exact congrArg Except.ok (decide_eq_true ⟨hres.1, hres.2.1⟩)

/-- Witness for the amended C2 at the concrete failing environment. -/
theorem claim_C2_witness :
    cs_fail_env.tts (cs_fail_env.nikud "שלום") (client_wav_name 0)
      = .ok { path := client_wav_name 0, duration_ms := 300 }
    ∧ cs_fail_env.cs (cs_input_of cs_fail_env "שלום" (client_wav_name 0))
      = .error "cs down"
    ∧ (run_turn cs_fail_env 0 "שלום"
        = .ok (run_turn_rest cs_fail_env 0 "שלום"
            { path := client_wav_name 0, duration_ms := 300 })
      ∧ (run_turn_rest cs_fail_env 0 "שלום"
          { path := client_wav_name 0, duration_ms := 300 }).transcript
        = [("client", cs_input_of cs_fail_env "שלום" (client_wav_name 0)),
           ("agent", tech_difficulty_msg)]
      ∧ (run_turn_rest cs_fail_env 0 "שלום"
          { path := client_wav_name 0, duration_ms := 300 }).meta.cs_action = none
      ∧ (run_turn_rest cs_fail_env 0 "שלום"
          { path := client_wav_name 0, duration_ms := 300 }).meta.reply_text = none
      ∧ (run_turn_rest cs_fail_env 0 "שלום"
          { path := client_wav_name 0, duration_ms := 300 }).meta.cs_error
        = some "cs down") :=
  ⟨rfl, rfl, claim_C2 cs_fail_env 0 "שלום" "cs down" _ rfl rfl⟩

/-- The map `Char.ofNat` round-trips on valid code points below the surrogate
range. -/
theorem toNat_ofNat_of_lt {n : Nat} (h : n < 55296) :
    (Char.ofNat n).toNat = n := by
  unfold Char.ofNat
  rw [dif_pos (Or.inl h)]
  rfl

/-- A character outside the lowercase ASCII range is only the
`str.lower` image of itself. -/
theorem pyLowerChar_fixed {d c : Char} (hc : c.toNat < 97 ∨ 122 < c.toNat)
    (h : pyLowerChar d = c) : d = c := by
  unfold pyLowerChar at h
  split at h
  · exfalso
    rename_i hrange
    have h2 := congrArg Char.toNat h
    rw [toNat_ofNat_of_lt (by omega)] at h2
    omega
  · exact h

/-- A character list mapping under `str.lower` to a list of characters
outside the lowercase ASCII range is that list. -/
theorem map_pyLower_fixed_eq : ∀ (m n : List Char),
    (∀ c ∈ n, c.toNat < 97 ∨ 122 < c.toNat) →
    m.map pyLowerChar = n → m = n := by
  intro m
  induction m with
  | nil =>
    intro n _ h
    exact h
  | cons c m2 ih =>
    intro n hn h
    match n with
    | [] => simp at h
    | c2 :: n2 =>
      rw [List.map_cons] at h
      have h1 : pyLowerChar c = c2 := (List.cons.injEq _ _ _ _ ▸ h).1
      have h2 : m2.map pyLowerChar = n2 := (List.cons.injEq _ _ _ _ ▸ h).2
      rw [pyLowerChar_fixed (hn c2 (by simp)) h1,
        ih n2 (fun d hd => hn d (by simp [hd])) h2]

/-- Pull an occurrence of a needle with no lowercase ASCII characters
back through `str.lower`. -/
theorem infix_of_infix_pyLower (n l : List Char)
    (hn : ∀ c ∈ n, c.toNat < 97 ∨ 122 < c.toNat)
    (h : n <:+: pyLowerList l) : n <:+: l := by
  obtain ⟨a, b, hab⟩ := h
  have h1 : List.map pyLowerChar l = a ++ (n ++ b) := by
    rw [← List.append_assoc, hab]
    rfl
  obtain ⟨l1, l23, hl, _, hm23⟩ := List.map_eq_append_iff.mp h1
  obtain ⟨l2, l3, hl2, hm2, _⟩ := List.map_eq_append_iff.mp hm23
  have h2 : l2 = n := map_pyLower_fixed_eq l2 n hn hm2
  exact ⟨l1, l3, by rw [hl, hl2, h2, List.append_assoc]⟩

/-- An occurrence of a needle whose first character is not whitespace
survives `dropWhile isPySpace`. -/
theorem infix_dropWhile_of_head (n l : List Char) (hne : n ≠ [])
    (hh : ∀ c, n.head? = some c → isPySpace c = false)
    (h : n <:+: l) : n <:+: l.dropWhile isPySpace := by
  obtain ⟨a, b, hab⟩ := h
  rw [← hab, List.append_assoc, List.dropWhile_append]
  split
  · match n, hne with
    | c :: n2, _ =>
      rw [List.cons_append, List.dropWhile_cons_of_neg (by simp [hh c rfl])]
      exact ⟨[], b, by simp⟩
  · exact ⟨a.dropWhile isPySpace, b, by rw [List.append_assoc]⟩

/-- An occurrence of a needle that neither starts nor ends with
whitespace survives `str.strip`. -/
theorem infix_pyStrip (n l : List Char) (hne : n ≠ [])
    (hh : ∀ c, n.head? = some c → isPySpace c = false)
    (hl : ∀ c, n.getLast? = some c → isPySpace c = false)
    (h : n <:+: l) : n <:+: pyStripList l := by
  have h1 := infix_dropWhile_of_head n l hne hh h
  have h2 : n.reverse <:+: (l.dropWhile isPySpace).reverse :=
    List.reverse_infix.mpr h1
  have h3 : n.reverse <:+: ((l.dropWhile isPySpace).reverse).dropWhile isPySpace := by
    apply infix_dropWhile_of_head _ _ (by simp [hne]) _ h2
    intro c hc
    rw [List.head?_reverse] at hc
    exact hl c hc
  unfold pyStripList
  have h4 := List.reverse_infix.mpr h3
  simpa using h4

/-- The stripped list occurs in the original list. -/
theorem pyStripList_within (l : List Char) : pyStripList l <:+: l := by
  unfold pyStripList
  have s1 : l.dropWhile isPySpace <:+ l := List.dropWhile_suffix _
  have s2 : ((l.dropWhile isPySpace).reverse.dropWhile isPySpace).reverse
      <+: (l.dropWhile isPySpace) := by
    have h4 : ((l.dropWhile isPySpace).reverse.dropWhile isPySpace).reverse.reverse
        <:+ (l.dropWhile isPySpace).reverse := by
      simpa using List.dropWhile_suffix (l := (l.dropWhile isPySpace).reverse)
        isPySpace
    exact List.reverse_suffix.mp h4
  exact s2.isInfix.trans s1.isInfix

/-- A needle of characters outside the lowercase ASCII range that does
not occur in the raw text does not occur in the stripped, lowered
text. -/
theorem not_infix_processed (text : String) (m : List Char)
    (hm : ∀ c ∈ m, c.toNat < 97 ∨ 122 < c.toNat)
    (h : ¬ (m <:+: text.data)) :
    ¬ (m <:+: pyLowerList (pyStripList text.data)) := by
  intro hc
  have h2 : m <:+: pyStripList text.data :=
    infix_of_infix_pyLower _ _ hm hc
  exact h (h2.trans (pyStripList_within _))

/-- A whitespace-free needle fixed by `str.lower` that occurs in the
raw text occurs in the stripped, lowered text. -/
theorem infix_processed (text : String) (m : List Char)
    (hne : m ≠ []) (hfix : m.map pyLowerChar = m)
    (hh : ∀ c, m.head? = some c → isPySpace c = false)
    (hl : ∀ c, m.getLast? = some c → isPySpace c = false)
    (h : m <:+: text.data) :
    m <:+: pyLowerList (pyStripList text.data) := by
  have h1 := infix_pyStrip m _ hne hh hl h
  have h2 := List.IsInfix.map pyLowerChar h1
  rw [hfix] at h2
  exact h2

/-- C4 (corrected): the claim fails as stated because the `אישור` rule
is checked before the `איך` rule and its pattern includes the
alternative `איך אדע`, and the `בטל` rule comes first of all; the input
`איך אדע` contains `איך` yet gets action `verify`. -/
theorem claim_C4_counterexample :
    containsSub "איך אדע" "איך"
    ∧ (scripted_reply_for 0 "איך אדע").action ≠ "explain"
    ∧ (scripted_reply_for 0 "איך אדע").action = "verify" :=
  ⟨by decide, by decide, by decide⟩

/-- C4 (amended): for every input text containing `איך` that matches
neither of the two earlier rules (it contains none of `בטל`,
`לבקש ביטול`, `אישור`, `איך אדע`), the scripted reply path returns
action `explain`. -/
theorem claim_C4 (choice : Nat) (text : String)
    (h1 : containsSub text "איך")
    (h2 : ¬ containsSub text "בטל")
    (h3 : ¬ containsSub text "לבקש ביטול")
    (h4 : ¬ containsSub text "אישור")
    (h5 : ¬ containsSub text "איך אדע") :
    (scripted_reply_for choice text).action = "explain" := by
  have hpos : "איך".data <:+: pyLowerList (pyStripList text.data) :=
    infix_processed text _ (by decide) (by decide) (by decide) (by decide) h1
  have hnb : ¬ ("בטל".data <:+: pyLowerList (pyStripList text.data)) :=
    not_infix_processed text _ (by decide) h2
  have hnlb : ¬ ("לבטל".data <:+: pyLowerList (pyStripList text.data)) := by
    intro hc
    exact hnb ((by decide : "בטל".data <:+: "לבטל".data).trans hc)
  have hnbk : ¬ ("לבקש ביטול".data <:+: pyLowerList (pyStripList text.data)) :=
    not_infix_processed text _ (by decide) h3
  have hna : ¬ ("אישור".data <:+: pyLowerList (pyStripList text.data)) :=
    not_infix_processed text _ (by decide) h4
  have hnam : ¬ ("אישורים".data <:+: pyLowerList (pyStripList text.data)) := by
    intro hc
    exact hna ((by decide : "אישור".data <:+: "אישורים".data).trans hc)
  have hnad : ¬ ("איך אדע".data <:+: pyLowerList (pyStripList text.data)) :=
    not_infix_processed text _ (by decide) h5
  have hnab : ¬ ("אישור במייל".data <:+: pyLowerList (pyStripList text.data)) := by
    intro hc
    exact hna ((by decide : "אישור".data <:+: "אישור במייל".data).trans hc)
  have hr1 : reSearch rule1_alts (pyLowerList (pyStripList text.data)) = false := by
    simp only [reSearch, rule1_alts, List.any_cons, List.any_nil,
      Bool.or_eq_true, decide_eq_true_eq, Bool.or_eq_false_iff,
      decide_eq_false_iff_not]
    exact ⟨hnb, hnlb, hnbk, hnlb, trivial⟩
  have hr2 : reSearch rule2_alts (pyLowerList (pyStripList text.data)) = false := by
    simp only [reSearch, rule2_alts, List.any_cons, List.any_nil,
      Bool.or_eq_true, decide_eq_true_eq, Bool.or_eq_false_iff,
      decide_eq_false_iff_not]
    exact ⟨hna, hnam, hnad, hnab, trivial⟩
  have hr3 : reSearch rule3_alts (pyLowerList (pyStripList text.data)) = true := by
    simp only [reSearch, rule3_alts, List.any_cons, List.any_nil,
      Bool.or_eq_true, decide_eq_true_eq]
    exact Or.inr (Or.inr (Or.inl hpos))
  simp only [scripted_reply_for, hr1, hr2, hr3, Bool.false_eq_true, if_false,
    if_true]
  rfl

/-- Witness for the amended C4 at the concrete input `איך`. -/
theorem claim_C4_witness :
    containsSub "איך" "איך"
    ∧ ¬ containsSub "איך" "בטל"
    ∧ ¬ containsSub "איך" "לבקש ביטול"
    ∧ ¬ containsSub "איך" "אישור"
    ∧ ¬ containsSub "איך" "איך אדע"
    ∧ (scripted_reply_for 2 "איך").action = "explain" :=
  ⟨by decide, by decide, by decide, by decide, by decide,
   claim_C4 2 "איך" (by decide) (by decide) (by decide) (by decide) (by decide)⟩

/-- Witness for C6 at a concrete all-unreadable environment. -/
theorem claim_C6_witness :
    stitch_audio (fun _ => none) ["a.wav", "b.wav"] "out.wav" = none
    ∧ stitch_audio (fun _ => none) ["a.wav", "b.wav"] "out.wav" =
        stitch_audio (fun _ => none)
          (["a.wav", "b.wav"].filter fun p => ((fun (_ : String) => (none : Option ℚ)) p).isSome)
          "out.wav"
    ∧ (run_finalize (fun _ => none) "S" []).stitched = none
    ∧ (run_finalize (fun _ => none) "S" []).artifacts.stitched_audio = none :=
  ⟨(claim_C6 (fun _ => none) ["a.wav", "b.wav"] "out.wav" "S" []).1
      (fun p _ => rfl),
   (claim_C6 (fun _ => none) ["a.wav", "b.wav"] "out.wav" "S" []).2.1,
   ((claim_C6 (fun _ => none) ["a.wav", "b.wav"] "out.wav" "S" []).2.2
      (fun p _ => rfl)).1,
   ((claim_C6 (fun _ => none) ["a.wav", "b.wav"] "out.wav" "S" []).2.2
      (fun p _ => rfl)).2⟩

end Crew
